import Mathlib

/-!
Verification of the llm-council debate system against its design spec.

Part 1 models the backend debate orchestration (the core described in the spec);
the backend python sources are not part of the checked tree, so those definitions
are modelled from the spec text and marked as such. Part 2 models the React
frontend components, translated directly from the jsx sources.
-/

namespace Council

/-- Modelled from the spec: the backend Role record (spec section 3, Role). The backend
file roles.py is missing from the checked sources, only its documentation is present;
the fields follow the spec list: stable identifier, display name, model identifier
and the debate instruction text. -/
structure Role where
  role_id : String
  role_name : String
  model_id : String
  debate_instructions : String
  deriving DecidableEq

/-- Modelled from the spec: one debate Turn (spec section 3, Turn). round is 1-indexed,
sequence_index is the global position of the turn across the whole session. -/
structure Turn where
  round : Nat
  role_id : String
  role_name : String
  model_id : String
  message : String
  sequence_index : Nat
  deriving DecidableEq

/-- Modelled from the spec: the ordered context for one model invocation (spec
section 4.2): a system entry, the verbatim user question, then every prior turn in
transcript order. The three parts are kept as fields so that turn-level properties
are statable; the flat speaker and text list of the spec is the evident flattening
of this record. -/
structure DebateContext where
  system : String
  question : String
  history : List Turn
  deriving DecidableEq

/-- Modelled from the spec: the standing directive appended to the system entry
(spec section 4.2 item 1): round metadata plus guidance to build on prior
arguments, respond to others, avoid repetition and stay concise. -/
def debateDirective (round_num total_rounds : Nat) : String :=
  "DEBATE CONTEXT: You are participating in Round " ++ toString round_num ++ " of " ++
    toString total_rounds ++
    " in a structured debate council. Build on previous arguments, respond to " ++
    "counter-arguments, avoid repetition, keep your response focused and concise."

/-- Modelled from the spec: council.py is missing from the checked sources. Spec
section 4.2: the context for one turn is the role instruction system entry with
round metadata, the verbatim user question, and every prior turn of the supplied
transcript, in transcript order. -/
def build_debate_context (user_query : String) (role : Role) (debate_history : List Turn)
    (round_num total_rounds : Nat) : DebateContext :=
  { system := role.debate_instructions ++ " " ++ debateDirective round_num total_rounds
    question := user_query
    history := debate_history }

/-- Modelled from the spec: council.py is missing from the checked sources. Spec
section 4.4 runs, for round r from 1 to total_rounds and for each role in the fixed
registry order, one turn whose context is the transcript accumulated so far,
appending the resulting Turn and advancing sequence_index. This function yields the
transcript after the first n turns of that double loop: turn n (0-based) belongs to
round n / K + 1 and to the role at slot n % K, where K is the number of debate
roles. The external model invocation service is the invoke argument; a total
function models a session in which every invocation succeeds. -/
def transcriptUpTo (invoke : Role → DebateContext → String) (user_query : String)
    (roles : List Role) (total_rounds : Nat) : Nat → List Turn
  | 0 => []
  | n + 1 =>
    let acc := transcriptUpTo invoke user_query roles total_rounds n
    match roles[n % roles.length]? with
    | some role =>
        acc ++ [{ round := n / roles.length + 1
                  role_id := role.role_id
                  role_name := role.role_name
                  model_id := role.model_id
                  message := invoke role
                    (build_debate_context user_query role acc (n / roles.length + 1) total_rounds)
                  sequence_index := acc.length }]
    | none => acc

/-- Modelled from the spec: the debate orchestration entry point described in the
repository documentation and spec section 4.4: the full debate transcript is the
result of total_rounds times K sequential turns. -/
def run_multi_round_debate (invoke : Role → DebateContext → String) (user_query : String)
    (roles : List Role) (total_rounds : Nat) : List Turn :=
  transcriptUpTo invoke user_query roles total_rounds (total_rounds * roles.length)

lemma transcriptUpTo_succ (invoke : Role → DebateContext → String) (q : String)
    (roles : List Role) (R n : Nat) (role : Role)
    (h : roles[n % roles.length]? = some role) :
    transcriptUpTo invoke q roles R (n + 1) =
      transcriptUpTo invoke q roles R n ++
        [{ round := n / roles.length + 1
           role_id := role.role_id
           role_name := role.role_name
           model_id := role.model_id
           message := invoke role
             (build_debate_context q role (transcriptUpTo invoke q roles R n)
               (n / roles.length + 1) R)
           sequence_index := (transcriptUpTo invoke q roles R n).length }] := by
  conv_lhs => rw [transcriptUpTo]
  rw [h]

lemma transcriptUpTo_length (invoke : Role → DebateContext → String) (q : String)
    (roles : List Role) (R : Nat) (hK : 0 < roles.length) :
    ∀ n, (transcriptUpTo invoke q roles R n).length = n := by
  intro n
  induction n with
  | zero => rfl
  | succ n ih =>
    have hlt : n % roles.length < roles.length := Nat.mod_lt _ hK
    rw [transcriptUpTo_succ invoke q roles R n _ (List.getElem?_eq_getElem hlt)]
    simp [ih]

lemma transcriptUpTo_getElem (invoke : Role → DebateContext → String) (q : String)
    (roles : List Role) (R : Nat) (hK : 0 < roles.length) :
    ∀ n i (hlen : i < (transcriptUpTo invoke q roles R n).length),
      (transcriptUpTo invoke q roles R n)[i].sequence_index = i ∧
        (transcriptUpTo invoke q roles R n)[i].round = i / roles.length + 1 := by
  intro n
  induction n with
  | zero => intro i hlen; simp [transcriptUpTo] at hlen
  | succ n ih =>
    intro i hlen
    have hlt : n % roles.length < roles.length := Nat.mod_lt _ hK
    have hstep := transcriptUpTo_succ invoke q roles R n _ (List.getElem?_eq_getElem hlt)
    have hn : (transcriptUpTo invoke q roles R n).length = n :=
      transcriptUpTo_length invoke q roles R hK n
    rcases Nat.lt_or_ge i n with hi | hi
    · have hi' : i < (transcriptUpTo invoke q roles R n).length := by omega
      have := ih i hi'
      simp only [hstep]
      rw [List.getElem_append_left hi']
      exact this
    · have hi2 : i < n + 1 := by
        have := transcriptUpTo_length invoke q roles R hK (n + 1)
        omega
      have hieq : i = n := by omega
      subst hieq
      simp only [hstep]
      have hlast : i = (transcriptUpTo invoke q roles R i).length := hn.symm
      rw [List.getElem_append_right (by omega)]
      simp [hn]

/-- C1: for a successful session with R rounds and K debate roles (K positive and every
model invocation succeeding), the transcript produced by run_multi_round_debate
contains exactly R times K turns, and the sequence_index values are strictly
increasing with list position. -/
theorem C1_transcript_length_and_seq_strict_mono (invoke : Role → DebateContext → String)
    (q : String) (roles : List Role) (R : Nat) (hK : 0 < roles.length) :
    (run_multi_round_debate invoke q roles R).length = R * roles.length ∧
      (run_multi_round_debate invoke q roles R).Pairwise
        (fun t1 t2 => t1.sequence_index < t2.sequence_index) := by
  constructor
  · exact transcriptUpTo_length invoke q roles R hK _
  · rw [List.pairwise_iff_getElem]
    intro i j hi hj hij
    simp only [run_multi_round_debate] at hi hj ⊢
    have h1 := transcriptUpTo_getElem invoke q roles R hK (R * roles.length) i hi
    have h2 := transcriptUpTo_getElem invoke q roles R hK (R * roles.length) j hj
    rw [h1.1, h2.1]
    exact hij

/-- Sample debate roles used to instantiate the theorems at concrete inputs. -/
def sampleRoles : List Role :=
  [{ role_id := "devils_advocate", role_name := "Devils Advocate", model_id := "llama3.2:3b",
     debate_instructions := "challenge assumptions" },
   { role_id := "optimist", role_name := "Optimiste", model_id := "mistral:7b",
     debate_instructions := "amplify benefits" }]

/-- Sample total model invocation used to instantiate the theorems at concrete inputs. -/
def sampleInvoke : Role → DebateContext → String :=
  fun role ctx => role.role_id ++ " speaks after " ++ toString ctx.history.length ++ " turns"

theorem C1_witness :
    0 < sampleRoles.length ∧
      ((run_multi_round_debate sampleInvoke "Adopt a four day week?" sampleRoles 2).length =
          2 * sampleRoles.length ∧
        (run_multi_round_debate sampleInvoke "Adopt a four day week?" sampleRoles 2).Pairwise
          (fun t1 t2 => t1.sequence_index < t2.sequence_index)) :=
  ⟨by decide,
   C1_transcript_length_and_seq_strict_mono sampleInvoke "Adopt a four day week?" sampleRoles 2
     (by decide)⟩

/-- C2: no lookahead. Write K for the number of debate roles, r = rr + 1 for the
1-indexed round being built and s for the 0-based role slot within the round. The
orchestration calls the context builder at global turn rr * K + s with the transcript
accumulated so far (first conjunct: the next step of the loop consumes exactly that
context), and every turn in that context belongs to a round at most r, while every
turn of round r itself was produced at an earlier global position than rr * K + s,
hence at an earlier role slot of round r. -/
theorem C2_context_no_lookahead (invoke : Role → DebateContext → String) (q : String)
    (roles : List Role) (R rr s : Nat) (hK : 0 < roles.length) (hs : s < roles.length)
    (hr : rr < R) :
    (transcriptUpTo invoke q roles R (rr * roles.length + s + 1) =
      transcriptUpTo invoke q roles R (rr * roles.length + s) ++
        [{ round := rr + 1
           role_id := (roles.get ⟨s, hs⟩).role_id
           role_name := (roles.get ⟨s, hs⟩).role_name
           model_id := (roles.get ⟨s, hs⟩).model_id
           message := invoke (roles.get ⟨s, hs⟩)
             (build_debate_context q (roles.get ⟨s, hs⟩)
               (transcriptUpTo invoke q roles R (rr * roles.length + s)) (rr + 1) R)
           sequence_index := rr * roles.length + s }]) ∧
    ∀ t ∈ (build_debate_context q (roles.get ⟨s, hs⟩)
        (transcriptUpTo invoke q roles R (rr * roles.length + s)) (rr + 1) R).history,
      t.round ≤ rr + 1 ∧ (t.round = rr + 1 → t.sequence_index < rr * roles.length + s) := by
  have hmod : (rr * roles.length + s) % roles.length = s := by
    rw [Nat.add_comm, Nat.add_mul_mod_self_right, Nat.mod_eq_of_lt hs]
  have hdiv : (rr * roles.length + s) / roles.length = rr := by
    rw [Nat.add_comm, Nat.mul_comm, Nat.add_mul_div_left _ _ hK, Nat.div_eq_of_lt hs]
    omega
  have hget : roles[(rr * roles.length + s) % roles.length]? = some (roles.get ⟨s, hs⟩) := by
    rw [hmod]
    exact List.getElem?_eq_getElem hs
  have hlen : (transcriptUpTo invoke q roles R (rr * roles.length + s)).length =
      rr * roles.length + s := transcriptUpTo_length invoke q roles R hK _
  constructor
  · have hstep := transcriptUpTo_succ invoke q roles R (rr * roles.length + s) _ hget
    rw [hstep, hdiv, hlen]
  · intro t ht
    simp only [build_debate_context] at ht
    rcases List.mem_iff_getElem.mp ht with ⟨i, hilen, hieq⟩
    have hfacts := transcriptUpTo_getElem invoke q roles R hK (rr * roles.length + s) i hilen
    have hi : i < rr * roles.length + s := by rw [hlen] at hilen; exact hilen
    have hseq : t.sequence_index = i := by rw [← hieq]; exact hfacts.1
    have hround : t.round = i / roles.length + 1 := by rw [← hieq]; exact hfacts.2
    have hdivle : i / roles.length ≤ rr := by
      have hlt : i < (rr + 1) * roles.length := by
        have : rr * roles.length + s < (rr + 1) * roles.length := by
          calc rr * roles.length + s < rr * roles.length + roles.length := by omega
            _ = (rr + 1) * roles.length := by ring
        omega
      have := (Nat.div_lt_iff_lt_mul hK).mpr (by rw [Nat.mul_comm] at hlt ⊢; exact hlt)
      omega
    refine ⟨by omega, fun _ => ?_⟩
    omega

theorem C2_witness :
    0 < sampleRoles.length ∧ 1 < sampleRoles.length ∧ 1 < 2 ∧
      ∀ t ∈ (build_debate_context "Adopt a four day week?"
          (sampleRoles.get ⟨1, by decide⟩)
          (transcriptUpTo sampleInvoke "Adopt a four day week?" sampleRoles 2
            (1 * sampleRoles.length + 1)) (1 + 1) 2).history,
        t.round ≤ 1 + 1 ∧
          (t.round = 1 + 1 → t.sequence_index < 1 * sampleRoles.length + 1) :=
  ⟨by decide, by decide, by decide,
   (C2_context_no_lookahead sampleInvoke "Adopt a four day week?" sampleRoles 2 1 1
     (by decide) (by decide) (by decide)).2⟩

/-! Frontend models, translated from the jsx sources under src. -/

/-- Frontend debate turn as consumed by the React components: the payload objects
carry round, role_id, role_name, model and message (DebateRounds.jsx and
ChatInterface.jsx read exactly these fields). -/
structure FrontTurn where
  round : Nat
  role_id : String
  role_name : String
  model : String
  message : String
  deriving DecidableEq

/-- Lookup of a round key in the rounds object, modelled as an association list with
keys in first insertion order. -/
def lookupRound (r : Nat) : List (Nat × List FrontTurn) → Option (List FrontTurn)
  | [] => none
  | (k, v) :: rest => if k = r then some v else lookupRound r rest

/-- Push of one turn onto the list already stored under its round key. -/
def appendToRound (t : FrontTurn) : List (Nat × List FrontTurn) → List (Nat × List FrontTurn)
  | [] => []
  | (k, v) :: rest =>
    if k = t.round then (k, v ++ [t]) :: rest else (k, v) :: appendToRound t rest

/-- DebateRounds.jsx lines 13 to 19: the forEach body creates the round key with an
empty list when missing and then pushes the turn onto its round list. -/
def pushTurn (rounds : List (Nat × List FrontTurn)) (t : FrontTurn) :
    List (Nat × List FrontTurn) :=
  match lookupRound t.round rounds with
  | some _ => appendToRound t rounds
  | none => rounds ++ [(t.round, [t])]

/-- DebateRounds.jsx lines 13 to 19: the rounds object built by iterating over the
debate history in order. -/
def groupRounds (debateHistory : List FrontTurn) : List (Nat × List FrontTurn) :=
  debateHistory.foldl pushTurn []

/-- DebateRounds.jsx line 21: the numeric round keys sorted ascending. -/
def roundNumbers (debateHistory : List FrontTurn) : List Nat :=
  ((groupRounds debateHistory).map Prod.fst).insertionSort (· ≤ ·)

/-- DebateRounds.jsx line 22: the turns of the active round, or the empty list when
the active round has no entry. -/
def currentRoundTurns (debateHistory : List FrontTurn) (activeRound : Nat) :
    List FrontTurn :=
  (lookupRound activeRound (groupRounds debateHistory)).getD []

/-- What the DebateRounds component puts on screen: one tab per round, the header of
the active round, and the turn cards of the active round. -/
structure DebateRoundsView where
  tabs : List Nat
  header : Nat
  turns : List FrontTurn
  deriving DecidableEq

/-- DebateRounds.jsx: returns null when debateHistory is missing or empty (lines 8 to
10); otherwise renders the sorted round tabs and, for the active round, exactly
currentRoundTurns (lines 24 to 60). -/
def DebateRounds (debateHistory : Option (List FrontTurn)) (activeRound : Nat) :
    Option DebateRoundsView :=
  match debateHistory with
  | none => none
  | some h =>
    if h.isEmpty then none
    else some { tabs := roundNumbers h
                header := activeRound
                turns := currentRoundTurns h activeRound }

lemma lookupRound_append (r : Nat) (l1 l2 : List (Nat × List FrontTurn)) :
    lookupRound r (l1 ++ l2) =
      match lookupRound r l1 with
      | some v => some v
      | none => lookupRound r l2 := by
  induction l1 with
  | nil => simp [lookupRound]
  | cons p rest ih =>
    obtain ⟨k, v⟩ := p
    by_cases hk : k = r <;> simp [lookupRound, hk, ih]

lemma lookupRound_appendToRound (r : Nat) (t : FrontTurn)
    (rounds : List (Nat × List FrontTurn)) :
    lookupRound r (appendToRound t rounds) =
      if t.round = r then (lookupRound r rounds).map (fun v => v ++ [t])
      else lookupRound r rounds := by
  induction rounds with
  | nil => by_cases h : t.round = r <;> simp [appendToRound, lookupRound, h]
  | cons p rest ih =>
    obtain ⟨k, v⟩ := p
    by_cases hk : k = t.round
    · by_cases hkr : k = r
      · have htr : t.round = r := by omega
        simp [appendToRound, lookupRound, hk, hkr, htr]
      · have htr : ¬t.round = r := by omega
        simp [appendToRound, lookupRound, hk, hkr, htr]
    · by_cases hkr : k = r
      · have htr : ¬t.round = r := by omega
        have hk2 : ¬r = t.round := by omega
        simp [appendToRound, lookupRound, hk, hkr, htr, hk2]
      · simp [appendToRound, lookupRound, hk, hkr, ih]

lemma lookupRound_pushTurn (rounds : List (Nat × List FrontTurn)) (t : FrontTurn)
    (r : Nat) :
    (lookupRound r (pushTurn rounds t)).getD [] =
      (lookupRound r rounds).getD [] ++ (if t.round = r then [t] else []) := by
  unfold pushTurn
  cases hl : lookupRound t.round rounds with
  | some v =>
    rw [lookupRound_appendToRound]
    by_cases hr : t.round = r
    · subst hr; simp [hl]
    · simp [hr]
  | none =>
    rw [lookupRound_append]
    by_cases hr : t.round = r
    · subst hr; simp [hl, lookupRound]
    · cases hx : lookupRound r rounds <;> simp [hx, lookupRound, hr]

lemma lookupRound_foldl (h : List FrontTurn) :
    ∀ (acc : List (Nat × List FrontTurn)) (r : Nat),
      (lookupRound r (h.foldl pushTurn acc)).getD [] =
        (lookupRound r acc).getD [] ++ h.filter (fun u => decide (u.round = r)) := by
  induction h with
  | nil => intro acc r; simp
  | cons t h ih =>
    intro acc r
    rw [List.foldl_cons, ih, lookupRound_pushTurn, List.filter_cons]
    by_cases hr : t.round = r <;> simp [hr]

/-- The active round tab shows exactly the turns of that round, in history order. -/
lemma currentRoundTurns_eq_filter (h : List FrontTurn) (r : Nat) :
    currentRoundTurns h r = h.filter (fun u => decide (u.round = r)) := by
  unfold currentRoundTurns groupRounds
  rw [lookupRound_foldl]
  simp [lookupRound]

/-- C5: DebateRounds renders nothing exactly when the history is missing or empty;
for any history, including the partial transcript of a failed session, the active
round tab shows all and only the turns whose round equals that tab, in history
order, and no turn of the history is dropped: each one appears on the tab of its
round. -/
theorem C5_debate_rounds_complete (h : List FrontTurn) (ar : Nat) :
    DebateRounds none ar = none ∧
    (DebateRounds (some h) ar = none ↔ h = []) ∧
    (∀ v, DebateRounds (some h) ar = some v →
      v.turns = h.filter (fun u => decide (u.round = ar))) ∧
    (∀ t ∈ h, t ∈ currentRoundTurns h t.round) := by
  refine ⟨rfl, ?_, ?_, ?_⟩
  · unfold DebateRounds
    by_cases he : h.isEmpty
    · simp [he, List.isEmpty_iff.mp he]
    · simp [he]
      intro hnil
      exact he (by simp [hnil])
  · intro v hv
    unfold DebateRounds at hv
    by_cases he : h.isEmpty
    · simp [he] at hv
    · simp [he] at hv
      rw [← hv]
      exact currentRoundTurns_eq_filter h ar
  · intro t ht
    rw [currentRoundTurns_eq_filter]
    exact List.mem_filter.mpr ⟨ht, by simp⟩

/-- Sample debate history used to instantiate the theorems at concrete inputs; the
second round is partial, as after a failed session. -/
def sampleHistory : List FrontTurn :=
  [{ round := 1, role_id := "devils_advocate", role_name := "Devils Advocate",
     model := "llama3.2:3b", message := "risk" },
   { round := 1, role_id := "optimist", role_name := "Optimiste",
     model := "mistral:7b", message := "upside" },
   { round := 2, role_id := "devils_advocate", role_name := "Devils Advocate",
     model := "llama3.2:3b", message := "more risk" }]

theorem C5_witness :
    (DebateRounds (some sampleHistory) 1 =
      some { tabs := [1, 2], header := 1, turns := sampleHistory.take 2 }) ∧
    (DebateRounds (some sampleHistory) 1).elim True
      (fun v => v.turns = sampleHistory.filter (fun u => decide (u.round = 1))) ∧
    sampleHistory[2] ∈ sampleHistory ∧
    sampleHistory[2] ∈ currentRoundTurns sampleHistory (sampleHistory[2]).round := by
  refine ⟨by decide, ?_, by decide, ?_⟩
  · have := ((C5_debate_rounds_complete sampleHistory 1).2.2.1)
    cases hv : DebateRounds (some sampleHistory) 1 with
    | none => simp
    | some v => simpa using this v hv
  · exact (C5_debate_rounds_complete sampleHistory 1).2.2.2 sampleHistory[2] (by decide)

lemma lookupRound_eq_none (r : Nat) (l : List (Nat × List FrontTurn)) :
    lookupRound r l = none ↔ r ∉ l.map Prod.fst := by
  induction l with
  | nil => simp [lookupRound]
  | cons p rest ih =>
    obtain ⟨k, v⟩ := p
    by_cases hk : k = r
    · simp [lookupRound, hk]
    · simp only [lookupRound, if_neg hk, ih, List.map_cons, List.mem_cons]
      constructor
      · intro hnm hor
        rcases hor with he | hm
        · exact hk he.symm
        · exact hnm hm
      · intro hnor hm
        exact hnor (Or.inr hm)

lemma appendToRound_keys (t : FrontTurn) (l : List (Nat × List FrontTurn)) :
    (appendToRound t l).map Prod.fst = l.map Prod.fst := by
  induction l with
  | nil => rfl
  | cons p rest ih =>
    obtain ⟨k, v⟩ := p
    by_cases hk : k = t.round <;> simp [appendToRound, hk, ih]

lemma pushTurn_keys (rounds : List (Nat × List FrontTurn)) (t : FrontTurn) :
    (pushTurn rounds t).map Prod.fst =
      if t.round ∈ rounds.map Prod.fst then rounds.map Prod.fst
      else rounds.map Prod.fst ++ [t.round] := by
  unfold pushTurn
  cases hl : lookupRound t.round rounds with
  | some v =>
    have hm : t.round ∈ rounds.map Prod.fst := by
      by_contra hmem
      rw [← lookupRound_eq_none] at hmem
      simp [hmem] at hl
    simp [appendToRound_keys, hm]
  | none =>
    have hm : t.round ∉ rounds.map Prod.fst := (lookupRound_eq_none _ _).mp hl
    simp [hm]

lemma groupRounds_keys_nodup_aux (h : List FrontTurn) :
    ∀ acc : List (Nat × List FrontTurn), (acc.map Prod.fst).Nodup →
      ((h.foldl pushTurn acc).map Prod.fst).Nodup := by
  induction h with
  | nil => intro acc ha; simpa using ha
  | cons t h ih =>
    intro acc ha
    rw [List.foldl_cons]
    apply ih
    rw [pushTurn_keys]
    by_cases hm : t.round ∈ acc.map Prod.fst
    · simpa [hm] using ha
    · simp only [hm, if_false]
      exact List.Nodup.append ha (List.nodup_singleton _) (by simp [List.disjoint_singleton, hm])

lemma mem_keys_foldl (h : List FrontTurn) :
    ∀ (acc : List (Nat × List FrontTurn)) (r : Nat),
      r ∈ acc.map Prod.fst ∨ (∃ t ∈ h, t.round = r) →
      r ∈ (h.foldl pushTurn acc).map Prod.fst := by
  induction h with
  | nil =>
    intro acc r hr
    rcases hr with hr | ⟨t, ht, _⟩
    · simpa using hr
    · simp at ht
  | cons u h ih =>
    intro acc r hr
    rw [List.foldl_cons]
    refine ih (pushTurn acc u) r ?_
    rcases hr with hr | ⟨t, ht, hteq⟩
    · left
      rw [pushTurn_keys]
      by_cases hm : u.round ∈ acc.map Prod.fst <;> simp [hm, hr]
    · rcases List.mem_cons.mp ht with h1 | h1
      · left
        subst hteq
        subst h1
        rw [pushTurn_keys]
        by_cases hm : t.round ∈ acc.map Prod.fst <;> simp [hm]
      · exact Or.inr ⟨t, h1, hteq⟩

lemma round_mem_roundNumbers (h : List FrontTurn) (t : FrontTurn) (ht : t ∈ h) :
    t.round ∈ roundNumbers h := by
  unfold roundNumbers
  rw [List.mem_insertionSort]
  exact mem_keys_foldl h [] t.round (Or.inr ⟨t, ht, rfl⟩)

lemma roundNumbers_sorted_lt (h : List FrontTurn) :
    (roundNumbers h).Pairwise (· < ·) := by
  have hs : (roundNumbers h).Sorted (· ≤ ·) := List.sorted_insertionSort _ _
  have hn : (roundNumbers h).Nodup :=
    ((List.perm_insertionSort (· ≤ ·) _).nodup_iff).mpr
      (groupRounds_keys_nodup_aux h [] (by simp))
  exact hs.lt_of_le hn

lemma filter_round_eq_takeWhile (k : Nat) :
    ∀ h : List FrontTurn, h.Pairwise (fun a b => a.round ≤ b.round) →
      (∀ t ∈ h, k ≤ t.round) →
      h.filter (fun u => decide (u.round = k)) =
        h.takeWhile (fun u => decide (u.round = k)) := by
  intro h
  induction h with
  | nil => intro _ _; rfl
  | cons t h ih =>
    intro hp hmin
    by_cases ht : t.round = k
    · rw [List.filter_cons, List.takeWhile_cons]
      simp only [ht, decide_True, if_true]
      rw [ih hp.of_cons (fun u hu => hmin u (List.mem_cons_of_mem _ hu))]
    · have hk : k < t.round :=
        lt_of_le_of_ne (hmin t (List.mem_cons_self _ _)) (fun he => ht he.symm)
      rw [List.filter_cons, List.takeWhile_cons]
      simp only [ht, decide_False, Bool.false_eq_true, if_false]
      rw [List.filter_eq_nil_iff]
      intro u hu
      have := (List.pairwise_cons.mp hp).1 u hu
      simp only [decide_eq_true_eq]
      omega

lemma dropWhile_round_gt (k : Nat) :
    ∀ h : List FrontTurn, h.Pairwise (fun a b => a.round ≤ b.round) →
      (∀ t ∈ h, k ≤ t.round) →
      ∀ u ∈ h.dropWhile (fun u => decide (u.round = k)), k < u.round := by
  intro h
  induction h with
  | nil => intro _ _ u hu; simp [List.dropWhile] at hu
  | cons t h ih =>
    intro hp hmin u hu
    by_cases ht : t.round = k
    · rw [List.dropWhile_cons] at hu
      simp only [ht, decide_True, if_true] at hu
      exact ih hp.of_cons (fun v hv => hmin v (List.mem_cons_of_mem _ hv)) u hu
    · have hk : k < t.round :=
        lt_of_le_of_ne (hmin t (List.mem_cons_self _ _)) (fun he => ht he.symm)
      rw [List.dropWhile_cons] at hu
      simp only [ht, decide_False, if_false] at hu
      rcases List.mem_cons.mp hu with hu | hu
      · subst hu; exact hk
      · have := (List.pairwise_cons.mp hp).1 u hu
        omega

lemma flatMap_congr_on : ∀ (ks : List Nat) (f g : Nat → List FrontTurn),
    (∀ r ∈ ks, f r = g r) → ks.flatMap f = ks.flatMap g := by
  intro ks f g hfg
  induction ks with
  | nil => rfl
  | cons k ks ih =>
    rw [List.flatMap_cons, List.flatMap_cons, hfg k (by simp),
      ih (fun r hr => hfg r (List.mem_cons_of_mem _ hr))]

lemma sorted_flatMap_filter : ∀ (ks : List Nat) (h : List FrontTurn),
    ks.Pairwise (· < ·) →
    h.Pairwise (fun a b => a.round ≤ b.round) →
    (∀ t ∈ h, t.round ∈ ks) →
    ks.flatMap (fun r => h.filter (fun u => decide (u.round = r))) = h := by
  intro ks
  induction ks with
  | nil =>
    intro h _ _ hmem
    cases h with
    | nil => rfl
    | cons t h => exact absurd (hmem t (List.mem_cons_self _ _)) (by simp)
  | cons k ks ih =>
    intro h hks hp hmem
    have hmin : ∀ t ∈ h, k ≤ t.round := by
      intro t ht
      rcases List.mem_cons.mp (hmem t ht) with h1 | h1
      · omega
      · have := (List.pairwise_cons.mp hks).1 _ h1
        omega
    rw [List.flatMap_cons, filter_round_eq_takeWhile k h hp hmin]
    have hsplit := List.takeWhile_append_dropWhile (fun u => decide (u.round = k)) h
    have hgt : ∀ u ∈ h.dropWhile (fun u => decide (u.round = k)), k < u.round :=
      dropWhile_round_gt k h hp hmin
    have hcong : ∀ r ∈ ks, h.filter (fun u => decide (u.round = r)) =
        (h.dropWhile (fun u => decide (u.round = k))).filter
          (fun u => decide (u.round = r)) := by
      intro r hr
      conv_lhs => rw [← hsplit]
      rw [List.filter_append]
      have hnil : (h.takeWhile (fun u => decide (u.round = k))).filter
          (fun u => decide (u.round = r)) = [] := by
        rw [List.filter_eq_nil_iff]
        intro a ha
        have hak : a.round = k := by simpa using List.mem_takeWhile_imp ha
        have hkr : k < r := (List.pairwise_cons.mp hks).1 r hr
        simp only [decide_eq_true_eq]
        omega
      rw [hnil, List.nil_append]
    rw [flatMap_congr_on ks _ _ hcong]
    have hp2 : (h.dropWhile (fun u => decide (u.round = k))).Pairwise
        (fun a b => a.round ≤ b.round) := hp.sublist (List.dropWhile_sublist _)
    have hmem2 : ∀ t ∈ h.dropWhile (fun u => decide (u.round = k)), t.round ∈ ks := by
      intro t ht
      have h1 := hmem t ((List.dropWhile_sublist _).subset ht)
      rcases List.mem_cons.mp h1 with h1 | h1
      · have := hgt t ht
        omega
      · exact h1
    rw [ih _ (List.pairwise_cons.mp hks).2 hp2 hmem2]
    exact hsplit

/-- C6: for a history ordered by round ascending — as a successful transcript is,
being ordered by round first and by the fixed registry role order within a round —
the grouping of DebateRounds is order preserving: concatenating the per round groups
in the ascending order of the round tabs returns exactly the original list. -/
theorem C6_group_by_round_roundtrip (h : List FrontTurn)
    (hs : h.Pairwise (fun a b => a.round ≤ b.round)) :
    (roundNumbers h).flatMap (fun r => currentRoundTurns h r) = h := by
  rw [flatMap_congr_on _ _ _ (fun r _ => currentRoundTurns_eq_filter h r)]
  exact sorted_flatMap_filter (roundNumbers h) h (roundNumbers_sorted_lt h) hs
    (fun t ht => round_mem_roundNumbers h t ht)

theorem C6_witness :
    sampleHistory.Pairwise (fun a b => a.round ≤ b.round) ∧
      (roundNumbers sampleHistory).flatMap (fun r => currentRoundTurns sampleHistory r) =
        sampleHistory :=
  ⟨by decide, C6_group_by_round_roundtrip sampleHistory (by decide)⟩

/-- AgentMessage.jsx lines 5 to 11: the named pastel colors of the five known roles. -/
def ROLE_COLORS : List (String × String) :=
  [("Avocat", "#FFE5E5"), ("Scientifique", "#E5F3FF"), ("Philosophe", "#F0E5FF"),
   ("Critique", "#FFF5E5"), ("Juge", "#E5FFE5")]

/-- AgentMessage.jsx lines 14 to 16: the seven fallback colors. -/
def FALLBACK_COLORS : List String :=
  ["#FFE5E5", "#E5F3FF", "#F0E5FF", "#FFF5E5", "#E5FFE5", "#FFE5F5", "#E5FFFF"]

/-- Lookup of a role name among the own keys of the color object literal. -/
def lookupColor (name : String) : List (String × String) → Option String
  | [] => none
  | (k, v) :: rest => if name = k then some v else lookupColor name rest

/-- JS values reachable from the property access in getAgentColor: a string, or a
member inherited from Object.prototype (a function for most names, the prototype
object itself for the accessor named with two leading underscores); an inherited
member is never a string and is always truthy. -/
inductive JsValue where
  | str : String → JsValue
  | inherited : String → JsValue
  deriving DecidableEq

/-- Property names that every JS object literal inherits from Object.prototype: an
access ROLE_COLORS[name] with one of these names does not yield undefined but the
inherited truthy non-string member. -/
def OBJECT_PROTOTYPE_KEYS : List String :=
  ["constructor", "hasOwnProperty", "isPrototypeOf", "propertyIsEnumerable",
   "toLocaleString", "toString", "valueOf", "__defineGetter__", "__defineSetter__",
   "__lookupGetter__", "__lookupSetter__", "__proto__"]

/-- AgentMessage.jsx line 19: the JS property access on the ROLE_COLORS object
literal: an own key yields its string value, a name inherited from Object.prototype
yields that inherited member, anything else is undefined (none). -/
def roleColorsAccess (name : String) : Option JsValue :=
  match lookupColor name ROLE_COLORS with
  | some c => some (JsValue.str c)
  | none =>
    if name ∈ OBJECT_PROTOTYPE_KEYS then some (JsValue.inherited name) else none

/-- JS truthiness of the accessed value: undefined and the empty string are falsy;
non-empty strings and inherited functions or objects are truthy. -/
def jsTruthy : Option JsValue → Bool
  | none => false
  | some (JsValue.str s) => !s.isEmpty
  | some (JsValue.inherited _) => true

/-- The UTF-16 code units of one character, as the JS split and charCodeAt pair
sees them: a single unit below 0x10000, otherwise the surrogate pair. -/
def utf16CodeUnits (c : Char) : List Nat :=
  if c.toNat < 0x10000 then [c.toNat]
  else [0xD800 + (c.toNat - 0x10000) / 0x400, 0xDC00 + (c.toNat - 0x10000) % 0x400]

/-- AgentMessage.jsx line 23: the reduce over split adds the charCodeAt value of
every UTF-16 code unit of the role name, starting from 0, so the empty string
hashes to 0. -/
def charCodeSum (name : String) : Nat :=
  (name.toList.flatMap utf16CodeUnits).foldl (fun acc u => acc + u) 0

/-- The fallback color of AgentMessage.jsx line 24: the fallback list indexed by
the code unit sum modulo its length. -/
def fallbackColor (roleName : String) : String :=
  FALLBACK_COLORS.get
    ⟨charCodeSum roleName % FALLBACK_COLORS.length, Nat.mod_lt _ (by decide)⟩

/-- AgentMessage.jsx lines 18 to 25: if the property access on ROLE_COLORS is
truthy its value is returned as is — including members inherited from
Object.prototype — and only otherwise the fallback color is computed. -/
def getAgentColor (roleName : String) : JsValue :=
  if jsTruthy (roleColorsAccess roleName) then
    (roleColorsAccess roleName).getD (JsValue.str "")
  else JsValue.str (fallbackColor roleName)

lemma lookupColor_mem_values (name : String) :
    ∀ (l : List (String × String)) (c : String),
      lookupColor name l = some c → c ∈ l.map Prod.snd := by
  intro l
  induction l with
  | nil => intro c hc; simp [lookupColor] at hc
  | cons p rest ih =>
    obtain ⟨k, v⟩ := p
    intro c hc
    by_cases hk : name = k
    · simp only [lookupColor, if_pos hk, Option.some.injEq] at hc
      simp [hc]
    · simp only [lookupColor, if_neg hk] at hc
      simp [ih c hc]

lemma roleColors_values_sound :
    ∀ x ∈ ROLE_COLORS.map Prod.snd, x ∈ FALLBACK_COLORS ∧ x.isEmpty = false := by
  decide

/-- C8 counterexample: the claim as stated fails on the code. The name constructor
is inherited from Object.prototype, so the property access is truthy and
getAgentColor returns that inherited non-palette value instead of a palette color;
moreover the hash sums UTF-16 code units, not code points: for the single emoji
U+1F600 the code computes 112189 (fallback index 0), while the code point sum
128512 taken modulo 7 would name index 6, a different palette color. -/
theorem C8_counterexample :
    getAgentColor "constructor" = JsValue.inherited "constructor" ∧
    getAgentColor "constructor" ∉ FALLBACK_COLORS.map JsValue.str ∧
    getAgentColor "constructor" ∉ (ROLE_COLORS.map Prod.snd).map JsValue.str ∧
    charCodeSum "😀" = 112189 ∧
    getAgentColor "😀" = JsValue.str "#FFE5E5" ∧
    JsValue.str "#FFE5E5" ≠ JsValue.str (FALLBACK_COLORS.get ⟨128512 % 7, by decide⟩) := by
  decide

/-- C8 (amended): for every role-name string that is not a property name inherited
from Object.prototype, getAgentColor returns an element of the fixed pastel
palette: the named color for each of the five known role names, and otherwise the
fallback color selected by the UTF-16 code unit sum modulo the seven fallback
colors; as a pure function it returns the same color on every call with the same
name, so one role keeps one bubble color across all of its turns. -/
theorem C8_agent_color_palette (roleName : String)
    (hp : roleName ∉ OBJECT_PROTOTYPE_KEYS) :
    getAgentColor roleName ∈ FALLBACK_COLORS.map JsValue.str ∧
    (∀ c, lookupColor roleName ROLE_COLORS = some c →
      getAgentColor roleName = JsValue.str c) ∧
    (lookupColor roleName ROLE_COLORS = none →
      getAgentColor roleName = JsValue.str (fallbackColor roleName)) := by
  have key : ∀ c, lookupColor roleName ROLE_COLORS = some c →
      getAgentColor roleName = JsValue.str c ∧ c ∈ FALLBACK_COLORS := by
    intro c hl
    have hmem := lookupColor_mem_values roleName ROLE_COLORS c hl
    obtain ⟨hfb, hne⟩ := roleColors_values_sound c hmem
    have hacc : roleColorsAccess roleName = some (JsValue.str c) := by
      unfold roleColorsAccess
      rw [hl]
    refine ⟨?_, hfb⟩
    unfold getAgentColor
    rw [hacc]
    simp [jsTruthy, hne]
  have keyn : lookupColor roleName ROLE_COLORS = none →
      getAgentColor roleName = JsValue.str (fallbackColor roleName) := by
    intro hl
    have hacc : roleColorsAccess roleName = none := by
      unfold roleColorsAccess
      rw [hl, if_neg hp]
    unfold getAgentColor
    rw [hacc]
    simp [jsTruthy]
  refine ⟨?_, fun c hc => (key c hc).1, keyn⟩
  cases hl : lookupColor roleName ROLE_COLORS with
  | some c =>
    rw [(key c hl).1]
    exact List.mem_map_of_mem _ (key c hl).2
  | none =>
    rw [keyn hl]
    exact List.mem_map_of_mem _ (List.get_mem _ _ _)

theorem C8_witness :
    ("Juge" ∉ OBJECT_PROTOTYPE_KEYS ∧
      lookupColor "Juge" ROLE_COLORS = some "#E5FFE5" ∧
      getAgentColor "Juge" = JsValue.str "#E5FFE5") ∧
    ("Economiste" ∉ OBJECT_PROTOTYPE_KEYS ∧
      lookupColor "Economiste" ROLE_COLORS = none ∧
      getAgentColor "Economiste" = JsValue.str (fallbackColor "Economiste") ∧
      getAgentColor "Economiste" ∈ FALLBACK_COLORS.map JsValue.str) :=
  ⟨⟨by decide, by decide,
    (C8_agent_color_palette "Juge" (by decide)).2.1 "#E5FFE5" (by decide)⟩,
   ⟨by decide, by decide,
    (C8_agent_color_palette "Economiste" (by decide)).2.2 (by decide),
    (C8_agent_color_palette "Economiste" (by decide)).1⟩⟩

/-- What the AgentMessage component puts on screen: bubble color, role name,
optional round badge, model line and message body. The message is optional because
the Stage3 wrapper may pass a missing field through. -/
structure AgentMessageView where
  backgroundColor : JsValue
  roleName : String
  badge : Option String
  model : String
  message : Option String
  deriving DecidableEq

/-- AgentMessage.jsx lines 27 to 44: the round badge is rendered only when
roundNumber is truthy, that is a number other than 0 (none models the JS null or
undefined); the bubble color comes from getAgentColor. -/
def AgentMessage (roleName model : String) (message : Option String)
    (roundNumber : Option Nat) : AgentMessageView :=
  { backgroundColor := getAgentColor roleName
    roleName := roleName
    badge :=
      match roundNumber with
      | none => none
      | some n => if n = 0 then none else some ("Tour " ++ toString n)
    model := model
    message := message }

/-- The synthesis object as the frontend receives it. Both optional text fields are
present because the repository stores the final synthesis text under response while
SynthesisDashboard.jsx reads a message field; none models a JS field that is absent. -/
structure SynthesisRecord where
  role_id : String
  role_name : String
  model : String
  message : Option String
  response : Option String
  deriving DecidableEq

/-- Stage3 component, AgentMessage variant: returns null exactly when finalResponse
is missing, otherwise delegates to AgentMessage with the text taken from the
response field, the role name (defaulting to Juge when falsy) and the model, and
with roundNumber null. -/
def Stage3 (finalResponse : Option SynthesisRecord) : Option AgentMessageView :=
  match finalResponse with
  | none => none
  | some r =>
    some (AgentMessage (if r.role_name = "" then "Juge" else r.role_name) r.model
      r.response none)

/-- What the markdown variant of Stage3 puts on screen. -/
structure Stage3MarkdownView where
  roleName : String
  model : String
  text : Option String
  deriving DecidableEq

/-- Stage3 component, direct markdown variant: returns null exactly when
finalResponse is missing, otherwise renders the role name (defaulting to the Juge
display name when falsy), the model and the text of the response field. -/
def Stage3Markdown (finalResponse : Option SynthesisRecord) : Option Stage3MarkdownView :=
  match finalResponse with
  | none => none
  | some r =>
    some { roleName := if r.role_name = "" then "Juge/Synthétiseur" else r.role_name
           model := r.model
           text := r.response }

/-- C4: both Stage3 variants render nothing exactly when the finalResponse input is
missing, and for a present synthesis record they render the synthesis text taken
from the response field together with the role name and the model — so an absent
synthesis is distinguishable from a present one at the boundary. -/
theorem C4_stage3_boundary (fr : Option SynthesisRecord) :
    ((Stage3 fr = none ↔ fr = none) ∧ (Stage3Markdown fr = none ↔ fr = none)) ∧
    ∀ r, fr = some r →
      (∃ v, Stage3 fr = some v ∧ v.message = r.response ∧ v.model = r.model ∧
        v.roleName = (if r.role_name = "" then "Juge" else r.role_name)) ∧
      (∃ w, Stage3Markdown fr = some w ∧ w.text = r.response ∧ w.model = r.model ∧
        w.roleName = (if r.role_name = "" then "Juge/Synthétiseur" else r.role_name)) := by
  constructor
  · cases fr with
    | none => simp [Stage3, Stage3Markdown]
    | some r => simp [Stage3, Stage3Markdown]
  · intro r hr
    subst hr
    exact ⟨⟨_, rfl, rfl, rfl, rfl⟩, ⟨_, rfl, rfl, rfl, rfl⟩⟩

/-- Sample synthesis record used to instantiate the theorems at concrete inputs. -/
def sampleSynthesis : SynthesisRecord :=
  { role_id := "juge", role_name := "Juge/Synthetiseur", model := "llama3.1:8b",
    message := none, response := some "Balanced recommendation." }

theorem C4_witness :
    (Stage3 none = none ∧ Stage3Markdown none = none) ∧
    (∃ v, Stage3 (some sampleSynthesis) = some v ∧
      v.message = sampleSynthesis.response ∧ v.model = sampleSynthesis.model ∧
      v.roleName =
        (if sampleSynthesis.role_name = "" then "Juge" else sampleSynthesis.role_name)) ∧
    (∃ w, Stage3Markdown (some sampleSynthesis) = some w ∧
      w.text = sampleSynthesis.response ∧ w.model = sampleSynthesis.model ∧
      w.roleName = (if sampleSynthesis.role_name = "" then "Juge/Synthétiseur"
        else sampleSynthesis.role_name)) :=
  ⟨⟨((C4_stage3_boundary none).1.1).mpr rfl, ((C4_stage3_boundary none).1.2).mpr rfl⟩,
   ((C4_stage3_boundary (some sampleSynthesis)).2 sampleSynthesis rfl).1,
   ((C4_stage3_boundary (some sampleSynthesis)).2 sampleSynthesis rfl).2⟩

/-- C9: the round badge of AgentMessage is rendered exactly when the roundNumber
prop is truthy: every debate turn with round at least 1 shows the badge Tour n,
the synthesis rendered through Stage3 passes roundNumber null and so carries no
badge, and a round number of 0 would also show none. -/
theorem C9_round_badge (roleName model : String) (message : Option String) :
    (∀ n, 1 ≤ n →
      (AgentMessage roleName model message (some n)).badge = some ("Tour " ++ toString n)) ∧
    (AgentMessage roleName model message none).badge = none ∧
    (AgentMessage roleName model message (some 0)).badge = none ∧
    (∀ r : SynthesisRecord, (Stage3 (some r)).map (fun v => v.badge) = some none) := by
  refine ⟨?_, rfl, rfl, ?_⟩
  · intro n hn
    simp only [AgentMessage]
    rw [if_neg (by omega)]
  · intro r
    rfl

theorem C9_witness :
    1 ≤ 2 ∧
      (AgentMessage "Devils Advocate" "llama3.2:3b" (some "risk") (some 2)).badge =
        some ("Tour " ++ toString 2) ∧
      (Stage3 (some sampleSynthesis)).map (fun v => v.badge) = some none :=
  ⟨by decide,
   (C9_round_badge "Devils Advocate" "llama3.2:3b" (some "risk")).1 2 (by decide),
   (C9_round_badge "Devils Advocate" "llama3.2:3b" (some "risk")).2.2.2 sampleSynthesis⟩

/-- One multi criteria score row as extracted by SynthesisDashboard.jsx lines 31 to
49; the numeric score and maximum are kept as the matched text, since their only use
below is being listed. -/
structure ScoreItem where
  criterion : String
  score : String
  maxScore : String
  deriving DecidableEq

/-- Result of the regex extraction stage of SynthesisDashboard.jsx lines 14 to 69:
the bullet point lists of the four labeled sections and the optional score list
(extractScores returns null when nothing matches). -/
structure ExtractedData where
  consensusPoints : List String
  divergencePoints : List String
  riskPoints : List String
  scenarioPoints : List String
  scores : Option (List ScoreItem)
  deriving DecidableEq

/-- SynthesisDashboard.jsx lines 72 to 77: the dashboard only shows when some
section produced bullet points or the score extraction matched. -/
def hasData (d : ExtractedData) : Bool :=
  !d.consensusPoints.isEmpty || !d.divergencePoints.isEmpty || !d.riskPoints.isEmpty ||
    !d.scenarioPoints.isEmpty || d.scores.isSome

/-- What the dashboard grid puts on screen, one list per section. -/
structure DashboardView where
  consensusShown : List String
  divergenceShown : List String
  risksShown : List String
  scenariosShown : List String
  scoresShown : List ScoreItem
  deriving DecidableEq

/-- SynthesisDashboard.jsx lines 83 to 177: each section displays a sliced list —
consensus and divergence slice(0, 3), risks slice(0, 4), scenarios slice(0, 3) —
while the score rows are shown unsliced. -/
def renderDashboard (d : ExtractedData) : DashboardView :=
  { consensusShown := d.consensusPoints.take 3
    divergenceShown := d.divergencePoints.take 3
    risksShown := d.riskPoints.take 4
    scenariosShown := d.scenarioPoints.take 3
    scoresShown := d.scores.getD [] }

/-- SynthesisDashboard.jsx lines 7 to 81: the component reads the synthesis text
from the message field of its prop (line 12) — not from the response field — and
returns null when the prop or that field is missing or empty (line 8). The regex
extraction stage (lines 14 to 69) is kept abstract as the extract parameter, so the
theorems below hold for every possible extraction result; when extraction yields no
data the component also returns null, otherwise it renders the capped dashboard. -/
def SynthesisDashboard (synthesis : Option SynthesisRecord)
    (extract : String → ExtractedData) : Option DashboardView :=
  match synthesis with
  | none => none
  | some s =>
    match s.message with
    | none => none
    | some text =>
      if text = "" then none
      else if hasData (extract text) then some (renderDashboard (extract text)) else none

/-- C3: the claim fails on the code. Given a synthesis record in the external
payload shape — its generated final text stored under the response field, with a
labeled Consensus section inside it — SynthesisDashboard returns null for every
possible extraction, because it reads synthesis.message (SynthesisDashboard.jsx
lines 8 and 12), which the payload does not carry; the labeled sections in the
response text are therefore never extracted or displayed. -/
theorem C3_dashboard_reads_message_not_response :
    ∀ extract : String → ExtractedData,
      SynthesisDashboard
        (some { role_id := "juge", role_name := "Juge/Synthetiseur",
                model := "llama3.1:8b", message := none,
                response := some "## Consensus\n- Point A\n- Point B" })
        extract = none :=
  fun _ => rfl

/-- C10: whenever SynthesisDashboard renders, the number of displayed items is
capped regardless of how many were extracted from the synthesis text: at most 3
consensus points, at most 3 divergence points, at most 4 critical risks and at most
3 alternative scenarios are shown. -/
theorem C10_dashboard_caps (synthesis : Option SynthesisRecord)
    (extract : String → ExtractedData) (v : DashboardView)
    (hv : SynthesisDashboard synthesis extract = some v) :
    v.consensusShown.length ≤ 3 ∧ v.divergenceShown.length ≤ 3 ∧
      v.risksShown.length ≤ 4 ∧ v.scenariosShown.length ≤ 3 := by
  cases synthesis with
  | none => simp [SynthesisDashboard] at hv
  | some s =>
    cases hm : s.message with
    | none => simp [SynthesisDashboard, hm] at hv
    | some text =>
      simp only [SynthesisDashboard, hm] at hv
      by_cases he : text = ""
      · rw [if_pos he] at hv
        exact absurd hv (by simp)
      · rw [if_neg he] at hv
        by_cases hd : hasData (extract text) = true
        · rw [if_pos hd] at hv
          have hveq : renderDashboard (extract text) = v := Option.some.inj hv
          subst hveq
          refine ⟨?_, ?_, ?_, ?_⟩ <;>
            · simp only [renderDashboard, List.length_take]
              omega
        · rw [if_neg hd] at hv
          exact absurd hv (by simp)

/-- Sample synthesis record whose message field is present, used to instantiate the
dashboard theorems at a concrete input. -/
def sampleSynthesisWithMessage : SynthesisRecord :=
  { role_id := "juge", role_name := "Juge/Synthetiseur", model := "llama3.1:8b",
    message := some "## Consensus\n- a\n- b\n- c\n- d", response := none }

/-- Sample extraction result with more items than the dashboard caps. -/
def sampleExtract : String → ExtractedData := fun _ =>
  { consensusPoints := ["a", "b", "c", "d", "e"]
    divergencePoints := ["d1", "d2", "d3", "d4"]
    riskPoints := ["r1", "r2", "r3", "r4", "r5", "r6"]
    scenarioPoints := ["s1", "s2", "s3", "s4"]
    scores := none }

theorem C10_witness :
    SynthesisDashboard (some sampleSynthesisWithMessage) sampleExtract =
        some (DashboardView.mk ["a", "b", "c"] ["d1", "d2", "d3"]
          ["r1", "r2", "r3", "r4"] ["s1", "s2", "s3"] []) ∧
      (List.length ["a", "b", "c"] ≤ 3 ∧ List.length ["d1", "d2", "d3"] ≤ 3 ∧
        List.length ["r1", "r2", "r3", "r4"] ≤ 4 ∧ List.length ["s1", "s2", "s3"] ≤ 3) :=
  ⟨by decide,
   C10_dashboard_caps (some sampleSynthesisWithMessage) sampleExtract
     (DashboardView.mk ["a", "b", "c"] ["d1", "d2", "d3"] ["r1", "r2", "r3", "r4"]
       ["s1", "s2", "s3"] []) (by decide)⟩

/-- ChatInterface.jsx: the JS String.trim of the input, modelled on the character
list: whitespace is removed from both ends. -/
def jsTrim (s : List Char) : List Char :=
  ((s.dropWhile Char.isWhitespace).reverse.dropWhile Char.isWhitespace).reverse

/-- ChatInterface.jsx lines 100 to 110 (handleSubmit): onSendMessage is invoked
exactly when the trimmed input is a truthy (non empty) string and no request is in
flight; the returned boolean says whether the callback fires. -/
def handleSubmit (input : String) (isLoading : Bool) : Bool :=
  !(jsTrim input.toList).isEmpty && !isLoading

/-- C7: the submit handler invokes onSendMessage only if the input is non empty
after trimming and no request is in flight; in particular a whitespace-only
question is never submitted, matching the core precondition that the user question
is non empty text. -/
theorem C7_submit_guard (input : String) (isLoading : Bool) :
    (handleSubmit input isLoading = true → jsTrim input.toList ≠ [] ∧ isLoading = false) ∧
    (input.toList.all Char.isWhitespace = true → handleSubmit input isLoading = false) := by
  constructor
  · intro hsub
    unfold handleSubmit at hsub
    rcases Bool.and_eq_true_iff.mp hsub with ⟨h1, h2⟩
    constructor
    · intro hnil
      rw [hnil] at h1
      simp at h1
    · cases isLoading
      · rfl
      · simp at h2
  · intro hall
    unfold handleSubmit jsTrim
    have hdrop : input.toList.dropWhile Char.isWhitespace = [] := by
      rw [List.dropWhile_eq_nil_iff]
      intro x hx
      exact List.all_eq_true.mp hall x hx
    rw [hdrop]
    simp

theorem C7_witness :
    ("   ".toList.all Char.isWhitespace = true ∧ handleSubmit "   " false = false) ∧
      (handleSubmit "ask the council" false = true ∧
        (jsTrim "ask the council".toList ≠ [] ∧ false = false)) :=
  ⟨⟨by decide, (C7_submit_guard "   " false).2 (by decide)⟩,
   by decide, (C7_submit_guard "ask the council" false).1 (by decide)⟩

end Council
